import Mathlib

/-!
Verification development for the SEPwC tidal-analysis program
(`tidal_analysis.py`).  The Python functions are shallowly embedded as
executable Lean definitions:

* text fields of the whitespace-delimited data file are `List Char`;
* floating point measurements are modelled as `ℚ`, the float `NaN`
  missing sentinel as `none` of `Option ℚ`;
* a pandas cell of an object column is a `Cell` (number, raw string, or NaN);
* fallible operations return `Except Err _` where `Err` mirrors the Python
  exception taxonomy (`FileNotFoundError`, `TypeError`, `ValueError`, plus
  the spec's `InsufficientData` which the code itself never raises).

Every definition is translated from `src/tidal_analysis.py` and from the
documented behaviour of the pandas / numpy / scipy primitives it calls; any
simplification of a library primitive is recorded in the doc comment of the
definition that embeds it.
-/

namespace Tidal

/-- Timestamp of one reading: the calendar date encoded as the number
`YYYY*10000 + MM*100 + DD` (order-isomorphic to calendar order, matching the
lexicographic order of the `YYYYMMDD` strings used for `.loc` slicing) and
the time of day in seconds.  Readings are ordered lexicographically. -/
structure Timestamp where
  date : ℕ
  tod : ℕ
deriving DecidableEq, Repr

/-- Lexicographic order on timestamps: by date, then time of day. -/
def tsLe (a b : Timestamp) : Prop :=
  a.date < b.date ∨ (a.date = b.date ∧ a.tod ≤ b.tod)

instance (a b : Timestamp) : Decidable (tsLe a b) :=
  inferInstanceAs (Decidable (a.date < b.date ∨ (a.date = b.date ∧ a.tod ≤ b.tod)))

/-- Strict version of `tsLe`. -/
def tsLt (a b : Timestamp) : Prop :=
  a.date < b.date ∨ (a.date = b.date ∧ a.tod < b.tod)

/-- Value of a decimal digit character, `none` on any other character. -/
def digitVal (c : Char) : Option ℕ :=
  if '0' ≤ c ∧ c ≤ '9' then some (c.toNat - '0'.toNat) else none

/-- Accumulator pass of the natural-number reader: consumes decimal digits
left to right, failing on any non-digit. -/
def natValAux (acc : ℕ) : List Char → Option ℕ
  | [] => some acc
  | c :: rest =>
    match digitVal c with
    | none => none
    | some d => natValAux (10 * acc + d) rest

/-- Reads a non-empty all-digit string as a natural number (the integer part
accepted by float coercion and by `%Y`-style format codes). -/
def natVal : List Char → Option ℕ
  | [] => none
  | l => natValAux 0 l

/-- Value of a non-empty digit string read as the fractional digits after a
decimal point: `"25"` becomes `1/4`. -/
def fracVal : List Char → Option ℚ
  | [] => none
  | [c] => (digitVal c).map (fun d => (d : ℚ) / 10)
  | c :: rest =>
    match digitVal c, fracVal rest with
    | some d, some f => some (((d : ℚ) + f) / 10)
    | _, _ => none

/-- Test that a character is not the decimal point. -/
def notDot (c : Char) : Bool := decide (c ≠ '.')

/-- Unsigned decimal literal: digits, optionally followed by `.` and more
digits.  This is the shape of every numeric field of the tide-gauge files;
textual specials such as `inf` or `nan` literals are outside the model. -/
def parseUnsigned (l : List Char) : Option ℚ :=
  match l.dropWhile notDot with
  | [] => (natVal (l.takeWhile notDot)).map (fun n => (n : ℚ))
  | c :: fp =>
    if c = '.' then
      match natVal (l.takeWhile notDot), fracVal fp with
      | some i, some f => some ((i : ℚ) + f)
      | _, _ => none
    else none

/-- Numeric parse of one raw text field, as performed both by the
`read_csv` column-type inference and by `astype(float)`: an optional sign
followed by an unsigned decimal literal. -/
def parseFloat (l : List Char) : Option ℚ :=
  match l with
  | [] => parseUnsigned []
  | c :: rest =>
    if c = '-' then (parseUnsigned rest).map (fun q => -q)
    else if c = '+' then parseUnsigned rest
    else parseUnsigned (c :: rest)

/-- Suffix-flag detector: the three independent regex replacements
`.*M$`, `.*N$`, `.*T$` of `read_tidal_data` together match exactly the
fields whose text ends in `M`, `N` or `T`. -/
def endsFlag (l : List Char) : Bool :=
  match l.getLast? with
  | some c => c = 'M' || c = 'N' || c = 'T'
  | none => false

/-- Cell of a pandas object column: a parsed number, a raw string, or the
float `NaN` missing sentinel. -/
inductive Cell where
  | num (q : ℚ)
  | str (s : List Char)
  | nan
deriving DecidableEq, Repr

/-- Exception taxonomy.  `notFound`, `typeErr` and `valueErr` embed Python's
`FileNotFoundError`, `TypeError` and `ValueError`; `insufficientData` is the
spec's `InsufficientData` error, present in the taxonomy so that statements
about it can be made, and never produced by the embedded code. -/
inductive Err where
  | notFound (msg : String)
  | typeErr (msg : String)
  | valueErr (msg : String)
  | insufficientData
deriving DecidableEq, Repr

deriving instance DecidableEq for Except

/-- Raw tokens of one data row of the input file, after the 11 header lines
are skipped and each line is whitespace-split into the five positional
fields named `Index`, `Date`, `Time`, `Sea Level`, `Sea Level Rise`. -/
structure RawRow where
  idx : List Char
  date : List Char
  time : List Char
  sl : List Char
  slr : List Char
deriving DecidableEq, Repr

/-- Row of the parsed frame: the `DateTime` index value, the float
`Sea Level` column, and the un-coerced `Sea Level Rise` object column. -/
structure Row where
  ts : Timestamp
  seaLevel : Option ℚ
  seaLevelRise : Cell
deriving DecidableEq, Repr

/-- Parse of `date ++ " " ++ time` with `pd.to_datetime(format="%Y/%m/%d
%H:%M:%S")`: the date must be three `/`-separated digit groups and the time
three `:`-separated digit groups, with month, day, hour, minute and second
in range.  (Day-in-month calendar validation only rejects further inputs
and is elided; nothing below depends on it.) -/
def parseDateTime (d t : List Char) : Option Timestamp :=
  match d.splitOn '/', t.splitOn ':' with
  | [ys, ms, ds], [hs, ns, ss] => do
      let y ← natVal ys
      let mo ← natVal ms
      let da ← natVal ds
      let h ← natVal hs
      let mi ← natVal ns
      let se ← natVal ss
      if 1 ≤ mo ∧ mo ≤ 12 ∧ 1 ≤ da ∧ da ≤ 31 ∧ h < 24 ∧ mi < 60 ∧ se < 60 then
        pure ⟨y * 10000 + mo * 100 + da, h * 3600 + mi * 60 + se⟩
      else none
  | _, _ => none

/-- Column-type inference of `pd.read_csv`: a column whose tokens all parse
numerically becomes a float column; otherwise it is an object column whose
cells are the raw strings. -/
def inferColumn (raws : List (List Char)) : List Cell :=
  if raws.all (fun s => (parseFloat s).isSome) then
    raws.map (fun s => Cell.num ((parseFloat s).getD 0))
  else
    raws.map Cell.str

/-- Combined effect on one cell of the three in-place
`data.replace(to_replace=<regex>, value={col: np.nan}, regex=True)` calls
with the regexes `.*M$`, `.*N$` and `.*T$`: a string cell ending in one of
the three flag letters becomes `NaN`; numeric and `NaN` cells are untouched
(the regex only matches strings). -/
def replaceFlags (c : Cell) : Cell :=
  match c with
  | Cell.str s => if endsFlag s then Cell.nan else Cell.str s
  | c => c

/-- Result of `astype(float)` on one cell: numbers and `NaN` pass through,
a string must parse numerically or the conversion raises `ValueError`. -/
def astypeCell (c : Cell) : Except Err (Option ℚ) :=
  match c with
  | Cell.num q => Except.ok (some q)
  | Cell.nan => Except.ok none
  | Cell.str s =>
    match parseFloat s with
    | some q => Except.ok (some q)
    | none => Except.error (Err.valueErr "could not convert string to float")

/-- Whole-column `astype(float)`, failing if any cell fails. -/
def astypeColumn : List Cell → Except Err (List (Option ℚ))
  | [] => Except.ok []
  | c :: rest =>
    match astypeCell c with
    | Except.error e => Except.error e
    | Except.ok v =>
      match astypeColumn rest with
      | Except.error e => Except.error e
      | Except.ok vs => Except.ok (v :: vs)

/-- Datetime pass of `read_tidal_data`: builds the `DateTime` index from the
`Date` and `Time` columns; a single malformed row makes `pd.to_datetime`
raise `ValueError` for the whole file. -/
def parseIndex : List RawRow → Except Err (List Timestamp)
  | [] => Except.ok []
  | r :: rest =>
    match parseDateTime r.date r.time with
    | none => Except.error (Err.valueErr "time data does not match format")
    | some ts =>
      match parseIndex rest with
      | Except.error e => Except.error e
      | Except.ok tss => Except.ok (ts :: tss)

/-- Embedding of `read_tidal_data`.  The file-system argument is
`none` when the path does not exist (then `pd.read_csv` raises
`FileNotFoundError`, which the function's `except` clause re-raises with a
message naming the path) and otherwise `some raws`, the whitespace-split
data rows after the 11 skipped header lines.  On an existing file it
builds the `DateTime` index, applies the three flag replacements to each of
the two value columns, and casts the `Sea Level` column only to float; all
failures of those steps propagate as generic errors, uncaught by the
`except FileNotFoundError` clause. -/
def read_tidal_data (filename : String) (file : Option (List RawRow)) :
    Except Err (List Row) :=
  match file with
  | none => Except.error (Err.notFound ("The file " ++ filename ++ " does not exist"))
  | some raws =>
    match parseIndex raws with
    | Except.error e => Except.error e
    | Except.ok tss =>
      let slCells := (inferColumn (raws.map (·.sl))).map replaceFlags
      let slrCells := (inferColumn (raws.map (·.slr))).map replaceFlags
      match astypeColumn slCells with
      | Except.error e => Except.error e
      | Except.ok slVals =>
        Except.ok ((tss.zip (slVals.zip slrCells)).map
          (fun p => ⟨p.1, p.2.1, p.2.2⟩))

/-- Day-bound test of the `.loc[start_string:stop_string]` slice: with
8-digit `YYYYMMDD` bounds, partial-string indexing on a monotone
`DatetimeIndex` keeps exactly the rows whose calendar date lies in the
inclusive range (the end bound covers its whole day). -/
def inBound (start stop : ℕ) (r : Row) : Bool :=
  decide (start ≤ r.ts.date) && decide (r.ts.date ≤ stop)

/-- Embedding of `np.mean` applied to a pandas Series (which delegates to
`Series.mean`, skipping `NaN`): the mean of the non-missing values, or
`NaN` when there are none. -/
def seriesMean (vs : List (Option ℚ)) : Option ℚ :=
  let xs := vs.filterMap id
  if xs.length = 0 then none else some (xs.sum / (xs.length : ℚ))

/-- Elementwise `x - mmm` with float `NaN` semantics: subtracting from or
subtracting a `NaN` yields `NaN`. -/
def subMean (m v : Option ℚ) : Option ℚ :=
  match m, v with
  | some mq, some x => some (x - mq)
  | _, _ => none

/-- Embedding of `data.loc[start_string:stop_string, [columnNames[3]]]`:
the in-bound rows restricted to the sea-level column, as a fresh copy. -/
def extractWindow (start stop : ℕ) (data : List Row) :
    List (Timestamp × Option ℚ) :=
  (data.filter (inBound start stop)).map (fun r => (r.ts, r.seaLevel))

/-- Embedding of `extract_section_remove_mean`: slice the `Sea Level`
column (only) over the inclusive date bound, then subtract the
`NaN`-skipping mean of the sliced values from every value.  `str(start)` on
an 8-digit integer and the identical string are rendered alike by the
numeric `date` bounds. -/
def extract_section_remove_mean (start stop : ℕ) (data : List Row) :
    List (Timestamp × Option ℚ) :=
  (extractWindow start stop data).map
    (fun p => (p.1,
      subMean (seriesMean ((extractWindow start stop data).map (·.2))) p.2))

/-- Caller-visible state of `data` after `extract_section_remove_mean`:
`data.loc[a:b, [col]]` with a column list returns a copy and the in-place
`-=` mutates only that copy, so the input frame is unchanged. -/
def extract_section_remove_mean_inputAfter (_start _stop : ℕ) (data : List Row) :
    List Row :=
  data

/-- Embedding of `extract_single_year_remove_mean`: the source duplicates
the slice-and-centre body with bounds `str(year)+"0101"` and
`str(year)+"1231"`, i.e. the dates `year*10000+101` and `year*10000+1231`. -/
def extract_single_year_remove_mean (year : ℕ) (data : List Row) :
    List (Timestamp × Option ℚ) :=
  (extractWindow (year * 10000 + 101) (year * 10000 + 1231) data).map
    (fun p => (p.1,
      subMean (seriesMean ((extractWindow (year * 10000 + 101)
        (year * 10000 + 1231) data).map (·.2))) p.2))

/-- Caller-visible state of `data` after `extract_single_year_remove_mean`
(same copy discipline as the section extractor). -/
def extract_single_year_remove_mean_inputAfter (_year : ℕ) (data : List Row) :
    List Row :=
  data

/-- Python value passed to `join_data`: a pandas frame, or any other object
(tagged by its type name), which `pd.concat` rejects. -/
inductive PdObject where
  | frame (rows : List Row)
  | other (tag : String)
deriving DecidableEq, Repr

/-- Embedding of `pd.concat(objs)` along the index axis: the rows of the
frames concatenated in list order, with no deduplication and no re-sorting;
a `TypeError` if any element is not a pandas frame (the only failure mode of
a plain two-frame concatenation — column sets are outer-joined, never
rejected). -/
def pd_concat (objs : List PdObject) : Except Err (List Row) :=
  match objs.findSome?
      (fun o => match o with | PdObject.other t => some t | _ => none) with
  | some t => Except.error (Err.typeErr ("cannot concatenate object of type " ++ t))
  | none =>
    Except.ok ((objs.map
      (fun o => match o with | PdObject.frame r => r | PdObject.other _ => [])).flatten)

/-- Embedding of `join_data(data1, data2)`: `pd.concat([data2, data1])`,
with a raised `TypeError` caught and re-raised as a descriptive
`ValueError`. -/
def join_data (data1 data2 : PdObject) : Except Err (List Row) :=
  match pd_concat [data2, data1] with
  | Except.error (Err.typeErr m) =>
    Except.error (Err.valueErr ("Concatenation error joining data: " ++ m))
  | r => r

/-- Caller-visible state of the two arguments after `join_data`:
`pd.concat` builds a new frame and mutates neither input. -/
def join_data_inputAfter (data1 data2 : PdObject) : PdObject × PdObject :=
  (data1, data2)

/-- Embedding of `matplotlib.dates.date2num` on the frame's timestamps: an
injective, strictly monotone rational time axis (days plus fraction of
day).  The true epoch offset and day ordinal differ, but no claim under
proof depends on the affine scale of the axis, only on equality of axis
values for equal timestamps. -/
def date2num (t : Timestamp) : ℚ :=
  (t.date : ℚ) + (t.tod : ℚ) / 86400

/-- Slope of the ordinary least-squares line through the points, defined
when at least two points with non-identical first coordinates exist. -/
def olsSlope (pts : List (ℚ × ℚ)) : ℚ :=
  let n : ℚ := pts.length
  let xm := (pts.map Prod.fst).sum / n
  let ym := (pts.map Prod.snd).sum / n
  let ssxm := (pts.map (fun p => (p.1 - xm) ^ 2)).sum / n
  let ssxym := (pts.map (fun p => (p.1 - xm) * (p.2 - ym))).sum / n
  ssxym / ssxm

/-- Embedding of `scipy.stats.linregress` restricted to the channels the
program uses (slope and p-value, each `none` when the float result is
`NaN`): empty input raises `ValueError`; two or more points with all x
values identical raise `ValueError`; a single point passes the guards
(they require `len(x) > 1`) and yields `slope = 0/0 = NaN` and a `NaN`
p-value, silently.  On the regular path the numeric p-value comes from the
external t-distribution and only its presence is modelled. -/
def linregress (pts : List (ℚ × ℚ)) : Except Err (Option ℚ × Option Unit) :=
  match pts with
  | [] => Except.error (Err.valueErr "Inputs must not be empty.")
  | p :: rest =>
    if rest.all (fun q => decide (q.1 = p.1)) then
      if rest.length = 0 then Except.ok (none, none)
      else Except.error
        (Err.valueErr "Cannot calculate a linear regression if all x values are identical")
    else Except.ok (some (olsSlope pts), some ())

/-- Embedding of `sea_level_rise`: drop the rows whose `Sea Level` is
missing (`dropna(subset=[col])`), re-interpret the index as datetimes (a
no-op on the already-datetime index), convert it with `date2num`, and
forward to the regression primitive. -/
def sea_level_rise (data : List Row) : Except Err (Option ℚ × Option Unit) :=
  let d := data.filter (fun r => r.seaLevel.isSome)
  let pts := d.map (fun r => (date2num r.ts, r.seaLevel.getD 0))
  linregress pts

/-- Caller-visible state of `data` after `sea_level_rise`: `dropna` returns
a copy which the local name is rebound to; the subsequent index assignment
mutates only that copy. -/
def sea_level_rise_inputAfter (data : List Row) : List Row :=
  data

/-- Frame as seen by `tidal_analysis`: the rows plus whether the
`DatetimeIndex` is timezone-aware (the one index property the function
manipulates). -/
structure TAFrame where
  tzAware : Bool
  rows : List Row
deriving DecidableEq, Repr

/-- Caller-visible state of `data` after `tidal_analysis`: the statement
`data.index = data.index.tz_localize(None)` assigns a timezone-naive index
to the caller's own frame object (a no-op only when the index is already
naive), before the external `uptide` solver — which reads but never writes
the frame — is invoked.  The solver's amplitude/phase output is the
external-collaborator boundary of the spec and is not modelled. -/
def tidal_analysis_inputAfter (data : TAFrame) : TAFrame :=
  { data with tzAware := false }

/-- Run-identifier scan
`(not_nan != not_nan.shift()).cumsum()` after the first element: each
element keeps the previous identifier when its classification equals the
previous one and increments it otherwise. -/
def groupsAux (prev : Bool) (g : ℕ) : List Bool → List ℕ
  | [] => []
  | b :: rest =>
    if b = prev then g :: groupsAux b g rest
    else (g + 1) :: groupsAux b (g + 1) rest

/-- Run identifiers of a classification sequence: the first element always
differs from the shifted-in `NaN`, so the cumulative sum starts at 1. -/
def groupsOf : List Bool → List ℕ
  | [] => []
  | b :: rest => 1 :: groupsAux b 1 rest

/-- Distinct values of a list in order of first appearance.  For the run
identifiers produced by `groupsOf` (the consecutive integers 1, 2, … in
increasing order of appearance) this is also the enumeration order of the
pandas int64 hash table underlying `value_counts`. -/
def firstKeys : List ℕ → List ℕ
  | [] => []
  | k :: rest => k :: (firstKeys rest).filter (fun x => decide (x ≠ k))

/-- Key/count pairs of `value_counts` before sorting, keys in first
appearance order. -/
def valueCountsPairs (l : List ℕ) : List (ℕ × ℕ) :=
  (firstKeys l).map (fun k => (k, l.count k))

/-- Selection fold of `value_counts().idxmax()`: keeps the earliest pair
whose count is maximal (a later pair replaces the best only when strictly
greater), i.e. returns the maximal-count key appearing first.  This embeds
the composite library behaviour: `sort_values(ascending=False)` sorts via
pandas `nargsort`, which reverses the array before a tie-stable argsort
and reverses the resulting permutation afterwards — a double reversal that
keeps keys tied on count in their original first-appearance order, as the
documented `value_counts` example (keys `3, 1, 2, 4` for counts `2, 1, 1,
1`) shows — and `idxmax` then returns the first occurrence of the maximal
count, i.e. the first-seen tied key. -/
def selPair : Option (ℕ × ℕ) → List (ℕ × ℕ) → Option (ℕ × ℕ)
  | acc, [] => acc
  | none, p :: r => selPair (some p) r
  | some q, p :: r => selPair (some (if q.2 < p.2 then p else q)) r

/-- Embedding of `groups.value_counts().idxmax()`: `none` (pandas raises
`ValueError`) on an empty series, otherwise the maximal-count key that
appears first. -/
def vcIdxmax (l : List ℕ) : Option ℕ :=
  (selPair none (valueCountsPairs l)).map Prod.fst

/-- Classification series `not_nan = ~data[columnNames[3]].isna()`: true
exactly on the rows whose sea level is present. -/
def not_nan (data : List Row) : List Bool :=
  data.map (fun r => r.seaLevel.isSome)

/-- Run-identifier series
`groups = (not_nan != not_nan.shift()).cumsum()`. -/
def groups (data : List Row) : List ℕ :=
  groupsOf (not_nan data)

/-- Embedding of `get_longest_contiguous_data`: classify each row by
presence of `Sea Level`, assign run identifiers, pick the identifier with
the maximal count via `value_counts().idxmax()`, and return the rows of
that identifier by boolean-mask selection (`idxmax` of an empty series
raises `ValueError`). -/
def get_longest_contiguous_data (data : List Row) : Except Err (List Row) :=
  match vcIdxmax (groups data) with
  | none => Except.error (Err.valueErr "attempt to get argmax of an empty sequence")
  | some g =>
    Except.ok (((data.zip (groups data)).filter (fun p => decide (p.2 = g))).map
      Prod.fst)

/-- Caller-visible state of `data` after `get_longest_contiguous_data`:
boolean-mask selection returns a copy and nothing is written. -/
def get_longest_contiguous_data_inputAfter (data : List Row) : List Row :=
  data

/-- Default row used with `List.getD`. -/
def dRow : Row := ⟨⟨0, 0⟩, none, Cell.nan⟩

/-- Default raw row used with `List.getD`. -/
def dRaw : RawRow := ⟨[], [], [], [], []⟩

/-- Parsed frame of `exC1File`: the flagged second row is missing in both
value columns, the unflagged sea level is the float `15`, and the
unflagged sea-level-rise text stays the raw string `15` because its
column, containing a flag, was read as an object column and is never cast. -/
def exC1Rows : List Row :=
  [⟨⟨20000101, 0⟩, some 15, Cell.str "15".toList⟩,
   ⟨⟨20000101, 3600⟩, none, Cell.nan⟩]

/-- Default sea-level pair used with `List.getD`. -/
def dPair : Timestamp × Option ℚ := (⟨0, 0⟩, none)

/-- Row with the given date, time of day and sea level (rise column `NaN`),
used to build concrete frames. -/
def mkRow (d tod : ℕ) (v : Option ℚ) : Row := ⟨⟨d, tod⟩, v, Cell.nan⟩

/-- Concrete raw file: two rows whose `Sea Level Rise` column mixes the
parseable text `1.5` with the flagged text `2.0M`. -/
def exC1File : List RawRow :=
  [⟨ "0".toList, "2000/01/01".toList, "00:00:00".toList, "15".toList, "15".toList⟩,
   ⟨ "1".toList, "2000/01/01".toList, "01:00:00".toList, "20M".toList, "20M".toList⟩]

/-- Concrete raw file containing a row whose date does not match the
`%Y/%m/%d` format. -/
def exC6File : List RawRow :=
  [⟨ "0".toList, "2000/01/01".toList, "00:00:00".toList, "1.5".toList, "1.5".toList⟩,
   ⟨ "1".toList, "2000-01-01".toList, "01:00:00".toList, "1.6".toList, "1.6".toList⟩]

/-- Three-row frame: valid, missing, valid — three runs of length one tied
at the maximal count, so the tie-break decides the result. -/
def exVMV : List Row := [mkRow 1 0 (some 1), mkRow 2 0 none, mkRow 3 0 (some 2)]

/-- Seventeen-row frame: one run of 10 valid rows surrounded by shorter
invalid runs (3 before, 4 after). -/
def ex17 : List Row :=
  (List.range 3).map (fun i => mkRow (1 + i) 0 none) ++
    (List.range 10).map (fun i => mkRow (10 + i) 0 (some 1)) ++
    (List.range 4).map (fun i => mkRow (30 + i) 0 none)

/-- Frame whose longest run is a run of three missing values. -/
def exMissingMax : List Row :=
  [mkRow 1 0 (some 1), mkRow 2 0 none, mkRow 3 0 none, mkRow 4 0 none, mkRow 5 0 (some 2)]

/-- Frame with exactly one valid sea-level reading among missing ones. -/
def exC8 : List Row := [mkRow 1 0 none, mkRow 2 0 (some 5), mkRow 3 0 none]

/-- Timezone-aware single-row frame handed to the harmonic adapter. -/
def exTA : TAFrame := ⟨true, [mkRow 1 0 (some 1)]⟩

/-- Four-row sorted frame used to exercise the window extractor: three rows
inside the 20000101–20000102 bound (one missing) and one outside. -/
def exC3 : List Row :=
  [mkRow 20000101 0 (some 1), mkRow 20000101 3600 none,
   mkRow 20000102 0 (some 3), mkRow 20000103 0 (some 100)]

theorem parseIndex_ok_length :
    ∀ {raws : List RawRow} {tss : List Timestamp},
      parseIndex raws = Except.ok tss → tss.length = raws.length := by
  intro raws
  induction raws with
  | nil => intro tss h; simp [parseIndex] at h; simp [← h]
  | cons r rest ih =>
    intro tss h
    cases hd : parseDateTime r.date r.time with
    | none => simp [parseIndex, hd] at h
    | some ts =>
      cases hr : parseIndex rest with
      | error e => simp [parseIndex, hd, hr, Except.bind] at h
      | ok tss2 =>
        simp [parseIndex, hd, hr, Except.bind] at h
        simp [← h, ih hr]

theorem parseIndex_error_shape :
    ∀ {raws : List RawRow} {e : Err},
      parseIndex raws = Except.error e → ∃ m, e = Err.valueErr m := by
  intro raws
  induction raws with
  | nil => intro e h; simp [parseIndex] at h
  | cons r rest ih =>
    intro e h
    cases hd : parseDateTime r.date r.time with
    | none =>
      simp [parseIndex, hd] at h
      exact ⟨_, h.symm⟩
    | some ts =>
      cases hr : parseIndex rest with
      | error e2 =>
        simp [parseIndex, hd, hr, Except.bind] at h
        exact h ▸ ih hr
      | ok tss2 => simp [parseIndex, hd, hr, Except.bind] at h

theorem parseIndex_fail_of_bad :
    ∀ {raws : List RawRow},
      (∃ r ∈ raws, parseDateTime r.date r.time = none) →
      ∃ m, parseIndex raws = Except.error (Err.valueErr m) := by
  intro raws
  induction raws with
  | nil => intro h; simp at h
  | cons r rest ih =>
    intro h
    cases hd : parseDateTime r.date r.time with
    | none => exact ⟨"time data does not match format", by simp [parseIndex, hd]⟩
    | some ts =>
      have hbad : ∃ x ∈ rest, parseDateTime x.date x.time = none := by
        rcases h with ⟨x, hx, hpx⟩
        rcases List.mem_cons.mp hx with h1 | h1
        · rw [h1] at hpx; rw [hpx] at hd; cases hd
        · exact ⟨x, h1, hpx⟩
      rcases ih hbad with ⟨m, hm⟩
      exact ⟨m, by simp [parseIndex, hd, hm, Except.bind]⟩

theorem astypeColumn_error_shape :
    ∀ {cs : List Cell} {e : Err},
      astypeColumn cs = Except.error e → ∃ m, e = Err.valueErr m := by
  intro cs
  induction cs with
  | nil => intro e h; simp [astypeColumn] at h
  | cons c rest ih =>
    intro e h
    cases hc : astypeCell c with
    | error e2 =>
      simp [astypeColumn, hc] at h
      have h2 : e2 = Err.valueErr "could not convert string to float" := by
        cases c with
        | num q => simp [astypeCell] at hc
        | nan => simp [astypeCell] at hc
        | str s =>
          cases hp : parseFloat s with
          | some q => simp [astypeCell, hp] at hc
          | none => simp [astypeCell, hp] at hc; exact hc.symm
      exact ⟨_, h ▸ h2⟩
    | ok v =>
      cases hr : astypeColumn rest with
      | error e2 =>
        simp [astypeColumn, hc, hr, Except.bind] at h
        exact h ▸ ih hr
      | ok vs => simp [astypeColumn, hc, hr, Except.bind] at h

theorem astypeColumn_ok_length :
    ∀ {cs : List Cell} {vs : List (Option ℚ)},
      astypeColumn cs = Except.ok vs → vs.length = cs.length := by
  intro cs
  induction cs with
  | nil => intro vs h; simp [astypeColumn] at h; simp [← h]
  | cons c rest ih =>
    intro vs h
    cases hc : astypeCell c with
    | error e => simp [astypeColumn, hc, Except.bind] at h
    | ok v =>
      cases hr : astypeColumn rest with
      | error e => simp [astypeColumn, hc, hr, Except.bind] at h
      | ok vs2 =>
        simp [astypeColumn, hc, hr, Except.bind] at h
        simp [← h, ih hr]

theorem inferColumn_length (raws : List (List Char)) :
    (inferColumn raws).length = raws.length := by
  unfold inferColumn
  by_cases h : raws.all (fun s => (parseFloat s).isSome) <;> simp [h]

theorem natValAux_last_digit :
    ∀ {l : List Char} {acc n : ℕ}, natValAux acc l = some n →
      ∀ c, l.getLast? = some c → (digitVal c).isSome = true := by
  intro l
  induction l with
  | nil => intro acc n h c hc; simp at hc
  | cons a rest ih =>
    intro acc n h c hc
    cases hd : digitVal a with
    | none => simp [natValAux, hd] at h
    | some d =>
      cases rest with
      | nil =>
        simp at hc
        subst hc
        simp [hd]
      | cons b r2 =>
        have hc2 : (b :: r2).getLast? = some c := by
          simpa [List.getLast?_cons_cons] using hc
        have h2 : natValAux (10 * acc + d) (b :: r2) = some n := by
          simpa [natValAux, hd] using h
        exact ih h2 c hc2

theorem natVal_last_digit {l : List Char} {n : ℕ} (h : natVal l = some n) :
    ∀ c, l.getLast? = some c → (digitVal c).isSome = true := by
  cases l with
  | nil => simp [natVal] at h
  | cons a rest => exact natValAux_last_digit (by simpa [natVal] using h)

theorem fracVal_last_digit :
    ∀ {l : List Char} {q : ℚ}, fracVal l = some q →
      ∀ c, l.getLast? = some c → (digitVal c).isSome = true := by
  intro l
  induction l with
  | nil => intro q h; simp [fracVal] at h
  | cons a rest ih =>
    intro q h c hc
    cases rest with
    | nil =>
      have hac : a = c := by simpa using hc
      subst hac
      cases hd : digitVal a with
      | none => simp [fracVal, hd] at h
      | some d => simp [hd]
    | cons b r2 =>
      cases hd : digitVal a with
      | none => simp [fracVal, hd] at h
      | some d =>
        cases hf : fracVal (b :: r2) with
        | none => simp [fracVal, hd, hf] at h
        | some f =>
          have hc2 : (b :: r2).getLast? = some c := by
            simpa [List.getLast?_cons_cons] using hc
          exact ih hf c hc2

theorem parseUnsigned_last_digit {l : List Char} {q : ℚ}
    (h : parseUnsigned l = some q) :
    ∀ c, l.getLast? = some c → (digitVal c).isSome = true := by
  intro c hc
  cases hdp : l.dropWhile notDot with
  | nil =>
    have hl : l.takeWhile notDot = l := by
      conv_rhs => rw [← List.takeWhile_append_dropWhile notDot l, hdp,
        List.append_nil]
    unfold parseUnsigned at h
    rw [hdp] at h
    cases hn : natVal (l.takeWhile notDot) with
    | none => simp [hn] at h
    | some n => exact natVal_last_digit hn c (by rwa [hl])
  | cons a fp =>
    unfold parseUnsigned at h
    rw [hdp] at h
    by_cases ha : a = '.'
    · simp only [ha, if_true] at h
      cases hni : natVal (l.takeWhile notDot) with
      | none => simp [hni] at h
      | some i =>
        cases hf : fracVal fp with
        | none => simp [hni, hf] at h
        | some f =>
          cases fp with
          | nil => simp [fracVal] at hf
          | cons b r2 =>
            have hl : l = l.takeWhile notDot ++ a :: b :: r2 := by
              conv_lhs => rw [← List.takeWhile_append_dropWhile notDot l, hdp]
            have hlast : l.getLast? = (b :: r2).getLast? := by
              rw [hl, List.getLast?_append_of_ne_nil _ (by simp),
                List.getLast?_cons_cons]
            exact fracVal_last_digit hf c (by rw [← hlast]; exact hc)
    · simp [ha] at h

theorem parseFloat_last_digit {l : List Char} {q : ℚ}
    (h : parseFloat l = some q) :
    ∀ c, l.getLast? = some c → (digitVal c).isSome = true := by
  intro c hc
  cases l with
  | nil => simp at hc
  | cons a rest =>
    by_cases hm : a = '-'
    · rw [parseFloat] at h
      simp [hm] at h
      rcases h with ⟨q2, hq2, _⟩
      cases rest with
      | nil => simp [parseUnsigned, natVal] at hq2
      | cons b r2 =>
        exact parseUnsigned_last_digit hq2 c
          (by rwa [List.getLast?_cons_cons] at hc)
    · by_cases hp : a = '+'
      · rw [parseFloat] at h
        simp [hm, hp] at h
        cases rest with
        | nil => simp [parseUnsigned, natVal] at h
        | cons b r2 =>
          exact parseUnsigned_last_digit h c
            (by rwa [List.getLast?_cons_cons] at hc)
      · rw [parseFloat] at h
        simp [hm, hp] at h
        exact parseUnsigned_last_digit h c hc

theorem endsFlag_parseFloat_none {l : List Char} (h : endsFlag l = true) :
    parseFloat l = none := by
  cases hp : parseFloat l with
  | none => rfl
  | some q =>
    cases hl : l.getLast? with
    | none => simp [endsFlag, hl] at h
    | some c =>
      have hd := parseFloat_last_digit hp c hl
      simp [endsFlag, hl] at h
      rcases h with (rfl | rfl) | rfl <;> exact absurd hd (by decide)

theorem getD_map_lt {α β : Type} (f : α → β) {l : List α} {i : ℕ}
    (h : i < l.length) (d : α) (d2 : β) :
    (l.map f).getD i d2 = f (l.getD i d) := by
  rw [List.getD_eq_getElem l d h, List.getD_eq_getElem (l.map f) d2 (by simpa using h)]
  simp

theorem getD_zip_lt {α β : Type} {l : List α} {l2 : List β} {i : ℕ}
    (h1 : i < l.length) (h2 : i < l2.length) (d : α) (d2 : β) :
    (l.zip l2).getD i (d, d2) = (l.getD i d, l2.getD i d2) := by
  rw [List.getD_eq_getElem l d h1, List.getD_eq_getElem l2 d2 h2,
    List.getD_eq_getElem (l.zip l2) (d, d2) (by simp [List.length_zip]; omega)]
  simp

theorem getD_mem_of_lt {α : Type} {l : List α} {i : ℕ} (h : i < l.length) (d : α) :
    l.getD i d ∈ l := by
  rw [List.getD_eq_getElem l d h]
  exact List.getElem_mem h

theorem astypeColumn_ok_getD :
    ∀ {cs : List Cell} {vs : List (Option ℚ)}, astypeColumn cs = Except.ok vs →
      ∀ i, i < cs.length →
        astypeCell (cs.getD i Cell.nan) = Except.ok (vs.getD i none) := by
  intro cs
  induction cs with
  | nil => intro vs h i hi; simp at hi
  | cons c rest ih =>
    intro vs h i hi
    cases hc : astypeCell c with
    | error e => simp [astypeColumn, hc] at h
    | ok v =>
      cases hr : astypeColumn rest with
      | error e => simp [astypeColumn, hc, hr] at h
      | ok vs2 =>
        simp [astypeColumn, hc, hr] at h
        subst h
        cases i with
        | zero => simpa using hc
        | succ j => exact ih hr j (by simpa using hi)

theorem inferColumn_getD {rs : List (List Char)} {i : ℕ} (h : i < rs.length) :
    (inferColumn rs).getD i Cell.nan =
      if rs.all (fun s => (parseFloat s).isSome) then
        Cell.num ((parseFloat (rs.getD i [])).getD 0)
      else Cell.str (rs.getD i []) := by
  unfold inferColumn
  by_cases hall : rs.all (fun s => (parseFloat s).isSome) <;>
    simp only [hall, if_true, if_false, Bool.false_eq_true] <;>
    rw [getD_map_lt _ h []]

theorem filterMap_subMean (vs : List (Option ℚ)) (mq : ℚ) :
    ((vs.map (subMean (some mq))).filterMap id) =
      (vs.filterMap id).map (fun x => x - mq) := by
  induction vs with
  | nil => rfl
  | cons v rest ih =>
    cases v with
    | none => simpa [subMean] using ih
    | some x => simpa [subMean] using ih

theorem sum_map_sub_const (xs : List ℚ) (c : ℚ) :
    (xs.map (fun x => x - c)).sum = xs.sum - xs.length * c := by
  induction xs with
  | nil => simp
  | cons a rest ih => simp [ih]; ring

/-- C3: `extract_section_remove_mean` keeps exactly the rows whose date is
inside the inclusive bound, restricted to the sea-level column and in
order; missing rows are kept missing and valid rows stay valid; every value
is the original minus the mean over the slice's non-missing values; in
particular the non-missing values of the result sum to zero whenever the
slice has one; and the input series is not mutated.  (The monotone-index
hypothesis is the precondition of `.loc` partial-string slicing; the
parser's output satisfies it.) -/
theorem C3_extract_window (start stop : ℕ) (data : List Row)
    (_hmono : List.Chain' (fun a b => tsLe a.ts b.ts) data) :
    (extract_section_remove_mean start stop data).map Prod.fst =
      (data.filter (inBound start stop)).map (·.ts) ∧
      (extract_section_remove_mean start stop data).length =
        (data.filter (inBound start stop)).length ∧
      (∀ i, i < (data.filter (inBound start stop)).length →
        ((extract_section_remove_mean start stop data).getD i dPair).2 =
          subMean
            (seriesMean ((data.filter (inBound start stop)).map (·.seaLevel)))
            ((data.filter (inBound start stop)).getD i dRow).seaLevel) ∧
      (∀ i, i < (data.filter (inBound start stop)).length →
        (((data.filter (inBound start stop)).getD i dRow).seaLevel = none ↔
          ((extract_section_remove_mean start stop data).getD i dPair).2 = none)) ∧
      ((∃ r ∈ data.filter (inBound start stop), r.seaLevel ≠ none) →
        (((extract_section_remove_mean start stop data).map (·.2)).filterMap id).sum
          = 0) ∧
      extract_section_remove_mean_inputAfter start stop data = data := by
  have hvs : (extractWindow start stop data).map (·.2) =
      (data.filter (inBound start stop)).map (·.seaLevel) := by
    unfold extractWindow
    simp [List.map_map]
  have hwgetD : ∀ i, i < (data.filter (inBound start stop)).length →
      (extractWindow start stop data).getD i dPair =
        (((data.filter (inBound start stop)).getD i dRow).ts,
          ((data.filter (inBound start stop)).getD i dRow).seaLevel) := by
    intro i hilt
    unfold extractWindow
    rw [getD_map_lt _ hilt dRow dPair]
  have hgetD : ∀ i, i < (data.filter (inBound start stop)).length →
      (extract_section_remove_mean start stop data).getD i dPair =
        (((data.filter (inBound start stop)).getD i dRow).ts,
          subMean
            (seriesMean ((data.filter (inBound start stop)).map (·.seaLevel)))
            ((data.filter (inBound start stop)).getD i dRow).seaLevel) := by
    intro i hilt
    unfold extract_section_remove_mean
    rw [hvs]
    have hlt2 : i < (extractWindow start stop data).length := by
      unfold extractWindow
      simpa using hilt
    rw [getD_map_lt _ hlt2 dPair dPair, hwgetD i hilt]
  refine ⟨?_, ?_, ?_, ?_, ?_, rfl⟩
  · unfold extract_section_remove_mean extractWindow
    simp [List.map_map]
  · unfold extract_section_remove_mean extractWindow
    simp
  · intro i hilt
    rw [hgetD i hilt]
  · intro i hilt
    rw [hgetD i hilt]
    cases hm : seriesMean ((data.filter (inBound start stop)).map (·.seaLevel)) with
    | none =>
      constructor
      · intro hnone; simp [subMean]
      · intro _
        by_contra hne
        cases hv : ((data.filter (inBound start stop)).getD i dRow).seaLevel with
        | none => exact hne hv
        | some x =>
          unfold seriesMean at hm
          by_cases hlen :
              (((data.filter (inBound start stop)).map
                (·.seaLevel)).filterMap id).length = 0
          · have hx_mem : some x ∈ (data.filter (inBound start stop)).map
                (·.seaLevel) := by
              rw [← hv]
              exact List.mem_map_of_mem _ (getD_mem_of_lt hilt dRow)
            have hmem2 : x ∈ ((data.filter (inBound start stop)).map
                (·.seaLevel)).filterMap id :=
              List.mem_filterMap.mpr ⟨some x, hx_mem, rfl⟩
            rw [List.length_eq_zero.mp hlen] at hmem2
            simp at hmem2
          · simp only [hlen, if_false] at hm
            cases hm
    | some mq =>
      cases hv : ((data.filter (inBound start stop)).getD i dRow).seaLevel with
      | none => simp [subMean]
      | some x => simp [subMean]
  · intro hval
    rcases hval with ⟨r, hr, hrv⟩
    have hx_mem : r.seaLevel ∈ (data.filter (inBound start stop)).map (·.seaLevel) :=
      List.mem_map_of_mem _ hr
    cases hv : r.seaLevel with
    | none => exact absurd hv hrv
    | some x =>
      rw [hv] at hx_mem
      have hxs_mem : x ∈ ((data.filter (inBound start stop)).map
          (·.seaLevel)).filterMap id :=
        List.mem_filterMap.mpr ⟨some x, hx_mem, rfl⟩
      have hlen : (((data.filter (inBound start stop)).map
          (·.seaLevel)).filterMap id).length ≠ 0 := by
        intro h0
        rw [List.length_eq_zero.mp h0] at hxs_mem
        simp at hxs_mem
      have hres : (extract_section_remove_mean start stop data).map (·.2) =
          ((data.filter (inBound start stop)).map (·.seaLevel)).map
            (subMean (seriesMean ((data.filter (inBound start stop)).map
              (·.seaLevel)))) := by
        unfold extract_section_remove_mean
        rw [← hvs]
        simp [List.map_map]
      rw [hres]
      unfold seriesMean
      simp only [hlen, if_false]
      rw [filterMap_subMean, sum_map_sub_const]
      have hlenQ : ((((data.filter (inBound start stop)).map
          (·.seaLevel)).filterMap id).length : ℚ) ≠ 0 := by
        exact_mod_cast hlen
      simp only [List.filterMap_map] at hlenQ ⊢
      rw [mul_comm, div_mul_cancel₀ _ hlenQ, sub_self]

/-- C3 witness: the window theorem applied to the concrete sorted frame
`exC3` with the bounds 20000101–20000102: three rows (one missing) are
kept, and the non-missing centred values sum to zero. -/
theorem C3_extract_window_witness :
    (extract_section_remove_mean 20000101 20000102 exC3).map Prod.fst =
      (exC3.filter (inBound 20000101 20000102)).map (·.ts) ∧
      (((extract_section_remove_mean 20000101 20000102 exC3).map (·.2)).filterMap
        id).sum = 0 := by
  have hm : List.Chain' (fun a b => tsLe a.ts b.ts) exC3 := by
    simp [exC3, mkRow, List.chain'_cons, tsLe]
  have h := C3_extract_window 20000101 20000102 exC3 hm
  exact ⟨h.1, h.2.2.2.2.1 ⟨mkRow 20000101 0 (some 1), by decide, by decide⟩⟩

theorem groupsAux_length :
    ∀ (l : List Bool) (prev : Bool) (g : ℕ), (groupsAux prev g l).length = l.length := by
  intro l
  induction l with
  | nil => intro prev g; rfl
  | cons b rest ih =>
    intro prev g
    by_cases hb : b = prev <;> simp [groupsAux, hb, ih]

theorem groupsOf_length (bs : List Bool) : (groupsOf bs).length = bs.length := by
  cases bs with
  | nil => rfl
  | cons b rest => simp [groupsOf, groupsAux_length]

theorem groupsAux_ge :
    ∀ (l : List Bool) (prev : Bool) (g i : ℕ), i < l.length →
      g ≤ (groupsAux prev g l).getD i 0 := by
  intro l
  induction l with
  | nil => intro prev g i hi; simp at hi
  | cons b rest ih =>
    intro prev g i hi
    by_cases hb : b = prev
    · subst hb
      rw [show groupsAux b g (b :: rest) = g :: groupsAux b g rest from by
        simp [groupsAux]]
      cases i with
      | zero => simp
      | succ j => simpa using ih b g j (by simpa using hi)
    · rw [show groupsAux prev g (b :: rest) = (g + 1) :: groupsAux b (g + 1) rest from by
        simp [groupsAux, hb]]
      cases i with
      | zero => simp
      | succ j =>
        have := ih b (g + 1) j (by simpa using hi)
        simp only [List.getD_cons_succ]
        omega

theorem groupsAux_base :
    ∀ (l : List Bool) (prev : Bool) (g i : ℕ), i < l.length →
      (groupsAux prev g l).getD i 0 = g → l.getD i false = prev := by
  intro l
  induction l with
  | nil => intro prev g i hi; simp at hi
  | cons b rest ih =>
    intro prev g i hi hg
    by_cases hb : b = prev
    · subst hb
      rw [show groupsAux b g (b :: rest) = g :: groupsAux b g rest from by
        simp [groupsAux]] at hg
      cases i with
      | zero => simp
      | succ j =>
        simp only [List.getD_cons_succ] at hg ⊢
        exact ih b g j (by simpa using hi) hg
    · rw [show groupsAux prev g (b :: rest) = (g + 1) :: groupsAux b (g + 1) rest from by
        simp [groupsAux, hb]] at hg
      cases i with
      | zero => simp at hg
      | succ j =>
        simp only [List.getD_cons_succ] at hg
        have := groupsAux_ge rest b (g + 1) j (by simpa using hi)
        omega

theorem groupsAux_classConst :
    ∀ (l : List Bool) (prev : Bool) (g k : ℕ),
      ∃ c, ∀ i, i < l.length →
        (groupsAux prev g l).getD i 0 = k → l.getD i false = c := by
  intro l
  induction l with
  | nil => intro prev g k; exact ⟨false, by intro i hi; simp at hi⟩
  | cons b rest ih =>
    intro prev g k
    by_cases hb : b = prev
    · subst hb
      have hrw : groupsAux b g (b :: rest) = g :: groupsAux b g rest := by
        simp [groupsAux]
      by_cases hk : g = k
      · refine ⟨b, ?_⟩
        intro i hi hg
        rw [hrw] at hg
        cases i with
        | zero => simp
        | succ j =>
          simp only [List.getD_cons_succ] at hg ⊢
          exact groupsAux_base rest b g j (by simpa using hi) (by rw [hg, ← hk])
      · obtain ⟨c, hc⟩ := ih b g k
        refine ⟨c, ?_⟩
        intro i hi hg
        rw [hrw] at hg
        cases i with
        | zero => simp at hg; exact absurd hg hk
        | succ j =>
          simp only [List.getD_cons_succ] at hg ⊢
          exact hc j (by simpa using hi) hg
    · have hrw : groupsAux prev g (b :: rest) = (g + 1) :: groupsAux b (g + 1) rest := by
        simp [groupsAux, hb]
      by_cases hk : g + 1 = k
      · refine ⟨b, ?_⟩
        intro i hi hg
        rw [hrw] at hg
        cases i with
        | zero => simp
        | succ j =>
          simp only [List.getD_cons_succ] at hg ⊢
          exact groupsAux_base rest b (g + 1) j (by simpa using hi) (by rw [hg, ← hk])
      · obtain ⟨c, hc⟩ := ih b (g + 1) k
        refine ⟨c, ?_⟩
        intro i hi hg
        rw [hrw] at hg
        cases i with
        | zero => simp at hg; exact absurd hg hk
        | succ j =>
          simp only [List.getD_cons_succ] at hg ⊢
          exact hc j (by simpa using hi) hg

theorem groupsOf_classConst (bs : List Bool) (k : ℕ) :
    ∃ c, ∀ i, i < bs.length →
      (groupsOf bs).getD i 0 = k → bs.getD i false = c := by
  cases bs with
  | nil => exact ⟨false, by intro i hi; simp at hi⟩
  | cons b rest =>
    by_cases hk : 1 = k
    · refine ⟨b, ?_⟩
      intro i hi hg
      simp only [groupsOf] at hg
      cases i with
      | zero => simp
      | succ j =>
        simp only [List.getD_cons_succ] at hg ⊢
        exact groupsAux_base rest b 1 j (by simpa using hi) (by rw [hg, ← hk])
    · obtain ⟨c, hc⟩ := groupsAux_classConst rest b 1 k
      refine ⟨c, ?_⟩
      intro i hi hg
      simp only [groupsOf] at hg
      cases i with
      | zero => simp at hg; exact absurd hg hk
      | succ j =>
        simp only [List.getD_cons_succ] at hg ⊢
        exact hc j (by simpa using hi) hg

theorem groupsAux_step :
    ∀ (l : List Bool) (prev : Bool) (g : ℕ),
      (l ≠ [] → (groupsAux prev g l).getD 0 0 =
        if l.getD 0 false = prev then g else g + 1) ∧
      (∀ i, i + 1 < l.length →
        (groupsAux prev g l).getD (i + 1) 0 =
          if l.getD (i + 1) false = l.getD i false then (groupsAux prev g l).getD i 0
          else (groupsAux prev g l).getD i 0 + 1) := by
  intro l
  induction l with
  | nil =>
    intro prev g
    exact ⟨fun h => absurd rfl h, by intro i hi; simp at hi⟩
  | cons b rest ih =>
    intro prev g
    constructor
    · intro _
      by_cases hb : b = prev
      · subst hb
        simp [groupsAux]
      · simp [groupsAux, hb]
    · intro i hi
      have hrest : rest ≠ [] := by
        intro h0
        rw [h0] at hi
        simp at hi
      by_cases hb : b = prev
      · subst hb
        rw [show groupsAux b g (b :: rest) = g :: groupsAux b g rest from by
          simp [groupsAux]]
        cases i with
        | zero =>
          simp only [List.getD_cons_succ, List.getD_cons_zero]
          exact (ih b g).1 hrest
        | succ j =>
          simp only [List.getD_cons_succ]
          exact (ih b g).2 j (by simpa using hi)
      · rw [show groupsAux prev g (b :: rest) = (g + 1) :: groupsAux b (g + 1) rest from by
          simp [groupsAux, hb]]
        cases i with
        | zero =>
          simp only [List.getD_cons_succ, List.getD_cons_zero]
          exact (ih b (g + 1)).1 hrest
        | succ j =>
          simp only [List.getD_cons_succ]
          exact (ih b (g + 1)).2 j (by simpa using hi)

theorem groupsOf_head (bs : List Bool) (h : bs ≠ []) : (groupsOf bs).getD 0 0 = 1 := by
  cases bs with
  | nil => exact absurd rfl h
  | cons b rest => rfl

theorem groupsOf_step (bs : List Bool) (i : ℕ) (hi : i + 1 < bs.length) :
    (groupsOf bs).getD (i + 1) 0 =
      if bs.getD (i + 1) false = bs.getD i false then (groupsOf bs).getD i 0
      else (groupsOf bs).getD i 0 + 1 := by
  cases bs with
  | nil => simp at hi
  | cons b rest =>
    have hrest : rest ≠ [] := by
      intro h0
      rw [h0] at hi
      simp at hi
    simp only [groupsOf]
    cases i with
    | zero =>
      simp only [List.getD_cons_succ, List.getD_cons_zero]
      exact (groupsAux_step rest b 1).1 hrest
    | succ j =>
      simp only [List.getD_cons_succ]
      exact (groupsAux_step rest b 1).2 j (by simpa using hi)

theorem firstKeys_mem : ∀ (l : List ℕ) (k : ℕ), k ∈ firstKeys l ↔ k ∈ l := by
  intro l
  induction l with
  | nil => intro k; simp [firstKeys]
  | cons a rest ih =>
    intro k
    simp only [firstKeys, List.mem_cons, List.mem_filter]
    constructor
    · rintro (rfl | ⟨hk, _⟩)
      · exact Or.inl rfl
      · exact Or.inr ((ih k).mp hk)
    · rintro (rfl | hk)
      · exact Or.inl rfl
      · by_cases hak : k = a
        · exact Or.inl hak
        · exact Or.inr ⟨(ih k).mpr hk, by simpa using hak⟩

theorem firstKeys_ne_nil {l : List ℕ} (h : l ≠ []) : firstKeys l ≠ [] := by
  cases l with
  | nil => exact absurd rfl h
  | cons a rest => simp [firstKeys]

theorem selPair_some_spec :
    ∀ (l : List (ℕ × ℕ)) (a : ℕ × ℕ),
      ∃ q, selPair (some a) l = some q ∧
        ((q = a ∧ ∀ p ∈ l, p.2 ≤ a.2) ∨
          (∃ pre post, l = pre ++ q :: post ∧ a.2 < q.2 ∧
            (∀ p ∈ pre, p.2 < q.2) ∧ (∀ p ∈ post, p.2 ≤ q.2))) := by
  intro l
  induction l with
  | nil => intro a; exact ⟨a, rfl, Or.inl ⟨rfl, by simp⟩⟩
  | cons p r ih =>
    intro a
    by_cases hap : a.2 < p.2
    · obtain ⟨q, hq, hspec⟩ := ih p
      refine ⟨q, ?_, ?_⟩
      · rw [show selPair (some a) (p :: r) = selPair (some p) r from by
          simp [selPair, hap]]
        exact hq
      · rcases hspec with ⟨hqp, hall⟩ | ⟨pre, post, hsplit, hgt, hpre, hpost⟩
        · refine Or.inr ⟨[], r, by simp [hqp], ?_, by simp, ?_⟩
          · rw [hqp]; exact hap
          · intro x hx
            rw [hqp]
            exact hall x hx
        · refine Or.inr ⟨p :: pre, post, by simp [hsplit], lt_trans hap hgt, ?_, hpost⟩
          intro x hx
          rcases List.mem_cons.mp hx with rfl | hx
          · exact hgt
          · exact hpre x hx
    · have hpa : p.2 ≤ a.2 := Nat.le_of_not_lt hap
      obtain ⟨q, hq, hspec⟩ := ih a
      refine ⟨q, ?_, ?_⟩
      · rw [show selPair (some a) (p :: r) = selPair (some a) r from by
          simp [selPair, hap]]
        exact hq
      · rcases hspec with ⟨hqa, hall⟩ | ⟨pre, post, hsplit, hgt, hpre, hpost⟩
        · refine Or.inl ⟨hqa, ?_⟩
          intro x hx
          rcases List.mem_cons.mp hx with rfl | hx
          · exact hpa
          · exact hall x hx
        · refine Or.inr ⟨p :: pre, post, by simp [hsplit], hgt, ?_, hpost⟩
          intro x hx
          rcases List.mem_cons.mp hx with rfl | hx
          · exact lt_of_le_of_lt hpa hgt
          · exact hpre x hx

theorem selPair_none_spec (l : List (ℕ × ℕ)) (h : l ≠ []) :
    ∃ q pre post, selPair none l = some q ∧ l = pre ++ q :: post ∧
      (∀ p ∈ pre, p.2 < q.2) ∧ (∀ p ∈ post, p.2 ≤ q.2) := by
  cases l with
  | nil => exact absurd rfl h
  | cons p r =>
    obtain ⟨q, hq, hspec⟩ := selPair_some_spec r p
    have hsel : selPair none (p :: r) = some q := by
      rw [show selPair none (p :: r) = selPair (some p) r from rfl]
      exact hq
    rcases hspec with ⟨hqp, hall⟩ | ⟨pre, post, hsplit, hgt, hpre, hpost⟩
    · refine ⟨q, [], r, hsel, by simp [hqp], by simp, ?_⟩
      intro x hx
      rw [hqp]
      exact hall x hx
    · refine ⟨q, p :: pre, post, hsel, by simp [hsplit], ?_, hpost⟩
      intro x hx
      rcases List.mem_cons.mp hx with rfl | hx
      · exact hgt
      · exact hpre x hx

theorem vcIdxmax_spec (l : List ℕ) (h : l ≠ []) :
    ∃ g pre post, vcIdxmax l = some g ∧
      firstKeys l = pre ++ g :: post ∧
      (∀ k ∈ pre, l.count k < l.count g) ∧
      (∀ k ∈ post, l.count k ≤ l.count g) := by
  have hne : valueCountsPairs l ≠ [] := by
    unfold valueCountsPairs
    intro h0
    exact firstKeys_ne_nil h (List.map_eq_nil_iff.mp h0)
  obtain ⟨q, pre, post, hsel, hsplit, hpre, hpost⟩ := selPair_none_spec _ hne
  have hq2 : q.2 = l.count q.1 := by
    have hmem : q ∈ valueCountsPairs l := by rw [hsplit]; simp
    unfold valueCountsPairs at hmem
    rcases List.mem_map.mp hmem with ⟨k, _, rfl⟩
    rfl
  refine ⟨q.1, pre.map Prod.fst, post.map Prod.fst, ?_, ?_, ?_, ?_⟩
  · unfold vcIdxmax
    rw [hsel]
    rfl
  · have hfst : (valueCountsPairs l).map Prod.fst = firstKeys l := by
      unfold valueCountsPairs
      rw [List.map_map]
      have hcomp : (Prod.fst ∘ fun k => (k, List.count k l)) = fun k => k := rfl
      rw [hcomp]
      exact List.map_id _
    rw [← hfst, hsplit]
    simp
  · intro k hk
    rcases List.mem_map.mp hk with ⟨p, hp, rfl⟩
    have hp2 : p.2 = l.count p.1 := by
      have hpmem : p ∈ valueCountsPairs l := by
        rw [hsplit]
        exact List.mem_append.mpr (Or.inl hp)
      unfold valueCountsPairs at hpmem
      rcases List.mem_map.mp hpmem with ⟨k2, _, rfl⟩
      rfl
    rw [← hp2, ← hq2]
    exact hpre p hp
  · intro k hk
    rcases List.mem_map.mp hk with ⟨p, hp, rfl⟩
    have hp2 : p.2 = l.count p.1 := by
      have hpmem : p ∈ valueCountsPairs l := by
        rw [hsplit]
        exact List.mem_append.mpr (Or.inr (List.mem_cons_of_mem _ hp))
      unfold valueCountsPairs at hpmem
      rcases List.mem_map.mp hpmem with ⟨k2, _, rfl⟩
      rfl
    rw [← hp2, ← hq2]
    exact hpost p hp

theorem groups_length (data : List Row) : (groups data).length = data.length := by
  unfold groups not_nan
  rw [groupsOf_length]
  simp

theorem groups_ne_nil {data : List Row} (h : data ≠ []) : groups data ≠ [] := by
  intro h0
  apply h
  apply List.length_eq_zero.mp
  rw [← groups_length data, h0]
  rfl

/-- C2: `get_longest_contiguous_data` assigns run identifiers in one
left-to-right pass starting at 1 and incrementing exactly when the
missing/non-missing classification changes, and returns exactly the rows
of the run identifier with the maximum row count, with ties broken in
favour of the first-seen such run identifier (every earlier key has a
strictly smaller count, every later key counts at most the selected one);
the maximum-count run is returned regardless of whether it is a run of
valid or of missing values, so a single valid run of 10 rows surrounded by
shorter invalid runs yields exactly those 10 rows. -/
theorem C2_longest_run_selection (data : List Row) (hne : data ≠ []) :
    (groups data).getD 0 0 = 1 ∧
      (∀ i, i + 1 < data.length →
        (groups data).getD (i + 1) 0 =
          if (not_nan data).getD (i + 1) false = (not_nan data).getD i false
          then (groups data).getD i 0 else (groups data).getD i 0 + 1) ∧
      ∃ g pre post,
        get_longest_contiguous_data data =
          Except.ok (((data.zip (groups data)).filter
            (fun p => decide (p.2 = g))).map Prod.fst) ∧
          firstKeys (groups data) = pre ++ g :: post ∧
          (∀ k ∈ pre, (groups data).count k < (groups data).count g) ∧
          (∀ k ∈ post, (groups data).count k ≤ (groups data).count g) := by
  have hbs : not_nan data ≠ [] := by
    unfold not_nan
    simpa using hne
  refine ⟨?_, ?_, ?_⟩
  · unfold groups
    exact groupsOf_head _ hbs
  · intro i hi
    unfold groups
    refine groupsOf_step (not_nan data) i ?_
    unfold not_nan
    simpa using hi
  · obtain ⟨g, pre, post, hsel, hsplit, hpre, hpost⟩ :=
      vcIdxmax_spec (groups data) (groups_ne_nil hne)
    refine ⟨g, pre, post, ?_, hsplit, hpre, hpost⟩
    unfold get_longest_contiguous_data
    rw [hsel]

/-- C2 witness: the selection theorem applied to the 17-row frame `ex17`
(one run of 10 valid rows surrounded by 3 and 4 invalid rows), which
returns exactly those 10 rows; the frame `exMissingMax` shows that a
maximal run of missing values is likewise returned as-is, and the all-tied
frame `exVMV` shows the first-seen run winning a count tie. -/
theorem C2_longest_run_selection_witness :
    ex17 ≠ [] ∧ (groups ex17).getD 0 0 = 1 ∧
      get_longest_contiguous_data ex17 =
        Except.ok ((List.range 10).map (fun i => mkRow (10 + i) 0 (some 1))) ∧
      get_longest_contiguous_data exMissingMax =
        Except.ok [mkRow 2 0 none, mkRow 3 0 none, mkRow 4 0 none] ∧
      get_longest_contiguous_data exVMV = Except.ok [mkRow 1 0 (some 1)] := by
  refine ⟨by decide, (C2_longest_run_selection ex17 (by decide)).1, by decide,
    by decide, by decide⟩

/-- C10: `get_longest_contiguous_data` of an empty series fails (there is
no run to select, `idxmax` raises) rather than returning an empty series;
of a non-empty series it returns a non-empty sub-series all of whose rows
carry the same run identifier and hence the same validity classification. -/
theorem C10_scanner_nonempty_domain (data : List Row) :
    (data = [] → get_longest_contiguous_data data =
      Except.error (Err.valueErr "attempt to get argmax of an empty sequence")) ∧
      (data ≠ [] → ∃ out, get_longest_contiguous_data data = Except.ok out ∧
        out ≠ [] ∧ ∃ c, ∀ r ∈ out, r.seaLevel.isSome = c) := by
  constructor
  · intro h
    subst h
    rfl
  · intro hne
    obtain ⟨g, pre, post, hsel, hsplit, hpre, hpost⟩ :=
      vcIdxmax_spec (groups data) (groups_ne_nil hne)
    have hout : get_longest_contiguous_data data =
        Except.ok (((data.zip (groups data)).filter
          (fun p => decide (p.2 = g))).map Prod.fst) := by
      unfold get_longest_contiguous_data
      rw [hsel]
    refine ⟨_, hout, ?_, ?_⟩
    · have hgmem : g ∈ groups data := by
        apply (firstKeys_mem (groups data) g).mp
        rw [hsplit]
        simp
      rcases List.mem_iff_getElem.mp hgmem with ⟨i, hilt, hig⟩
      have hidata : i < data.length := by
        rw [← groups_length data]
        exact hilt
      have hiz : i < (data.zip (groups data)).length := by
        simp [List.length_zip]
        omega
      have hpmem : (data[i], g) ∈
          (data.zip (groups data)).filter (fun p => decide (p.2 = g)) := by
        apply List.mem_filter.mpr
        refine ⟨?_, by simp⟩
        apply List.mem_iff_getElem.mpr
        refine ⟨i, hiz, ?_⟩
        rw [List.getElem_zip, hig]
      intro h0
      rw [List.map_eq_nil_iff] at h0
      rw [h0] at hpmem
      simp at hpmem
    · obtain ⟨c, hc⟩ := groupsOf_classConst (not_nan data) g
      refine ⟨c, ?_⟩
      intro r hr
      rcases List.mem_map.mp hr with ⟨p, hpmem, rfl⟩
      have hpf := List.mem_filter.mp hpmem
      rcases List.mem_iff_getElem.mp hpf.1 with ⟨i, hiz, hip⟩
      have hidata : i < data.length := by
        simp [List.length_zip] at hiz
        omega
      have higs : i < (groups data).length := by
        rw [groups_length]
        exact hidata
      rw [List.getElem_zip] at hip
      have hp1 : p.1 = data[i] := by rw [← hip]
      have hp2 : p.2 = (groups data)[i] := by rw [← hip]
      have hpg : p.2 = g := by
        have := hpf.2
        simpa using this
      have hclass := hc i (by unfold not_nan; simpa using hidata) ?_
      · have hbsi : (not_nan data).getD i false = data[i].seaLevel.isSome := by
          unfold not_nan
          rw [getD_map_lt _ hidata dRow false,
            List.getD_eq_getElem data dRow hidata]
        rw [hbsi] at hclass
        rw [hp1]
        exact hclass
      · show (groups data).getD i 0 = g
        rw [List.getD_eq_getElem _ 0 higs, ← hp2, hpg]

/-- C10 witness: the scanner theorem applied to the empty frame (error) and
to the non-empty frame `exVMV` (a non-error result). -/
theorem C10_scanner_nonempty_domain_witness :
    get_longest_contiguous_data ([] : List Row) =
      Except.error (Err.valueErr "attempt to get argmax of an empty sequence") ∧
      get_longest_contiguous_data exVMV ≠
        Except.error (Err.valueErr "attempt to get argmax of an empty sequence") := by
  constructor
  · exact (C10_scanner_nonempty_domain []).1 rfl
  · obtain ⟨out, hout, _, _⟩ :=
      (C10_scanner_nonempty_domain exVMV).2 (by decide)
    rw [hout]
    intro h
    cases h

/-- C1 counterexample: in a file whose `Sea Level Rise` column mixes the
parseable text `1.5` with the flagged text `2.0M`, the column is read as an
object column and is never cast to float, so the parseable, unflagged rise
value `1.5` comes out of `read_tidal_data` as the raw string `1.5`, not as
the equivalent float — refuting the float-coercion half of the claim for
the sea-level-rise field. -/
theorem C1_rise_value_not_coerced :
    read_tidal_data "data.txt" (some exC1File) = Except.ok exC1Rows ∧
      endsFlag "15".toList = false ∧
      parseFloat "15".toList = some 15 ∧
      (exC1Rows.getD 0 dRow).seaLevelRise = Cell.str "15".toList ∧
      (exC1Rows.getD 0 dRow).seaLevelRise ≠ Cell.num 15 := by
  refine ⟨by decide, by decide, by decide, by decide, by decide⟩

/-- C1 (amended): for every parsed row, a raw `Sea Level` or
`Sea Level Rise` field ending in `M`, `N` or `T` is missing after
sanitization (one shared sentinel for all three letters); an unflagged,
numerically parseable `Sea Level` field is always coerced to the equivalent
float; an unflagged, numerically parseable `Sea Level Rise` field is the
equivalent float only when the whole rise column parses numerically (column
type inference) — when the rise column also contains a flagged value, the
unflagged rise entries remain raw text, because only the `Sea Level` column
is cast with `astype(float)`. -/
theorem C1_sanitize_and_coerce (filename : String) (raws : List RawRow)
    (rows : List Row)
    (hok : read_tidal_data filename (some raws) = Except.ok rows)
    (i : ℕ) (hi : i < raws.length) :
    rows.length = raws.length ∧
      (endsFlag (raws.getD i dRaw).sl = true → (rows.getD i dRow).seaLevel = none) ∧
      (∀ q, endsFlag (raws.getD i dRaw).sl = false →
        parseFloat (raws.getD i dRaw).sl = some q →
        (rows.getD i dRow).seaLevel = some q) ∧
      (endsFlag (raws.getD i dRaw).slr = true →
        (rows.getD i dRow).seaLevelRise = Cell.nan) ∧
      ((raws.map (·.slr)).all (fun s => (parseFloat s).isSome) = true →
        ∀ q, parseFloat (raws.getD i dRaw).slr = some q →
        (rows.getD i dRow).seaLevelRise = Cell.num q) ∧
      ((raws.map (·.slr)).all (fun s => (parseFloat s).isSome) = false →
        endsFlag (raws.getD i dRaw).slr = false →
        (rows.getD i dRow).seaLevelRise = Cell.str (raws.getD i dRaw).slr) := by
  cases hpi : parseIndex raws with
  | error e => simp [read_tidal_data, hpi] at hok
  | ok tss =>
    cases hac : astypeColumn ((inferColumn (raws.map (·.sl))).map replaceFlags) with
    | error e => simp [read_tidal_data, hpi, hac] at hok
    | ok slVals =>
      simp only [read_tidal_data, hpi, hac] at hok
      rw [Except.ok.injEq] at hok
      have hrows := hok
      have hts : tss.length = raws.length := parseIndex_ok_length hpi
      have hsvc : ((inferColumn (raws.map (·.sl))).map replaceFlags).length
          = raws.length := by simp [inferColumn_length]
      have hsv : slVals.length = raws.length := by
        rw [astypeColumn_ok_length hac, hsvc]
      have hsrc : ((inferColumn (raws.map (·.slr))).map replaceFlags).length
          = raws.length := by simp [inferColumn_length]
      have hsl_i : (raws.map (·.sl)).getD i [] = (raws.getD i dRaw).sl :=
        getD_map_lt _ hi dRaw []
      have hslr_i : (raws.map (·.slr)).getD i [] = (raws.getD i dRaw).slr :=
        getD_map_lt _ hi dRaw []
      have hlen : rows.length = raws.length := by
        rw [← hrows]
        simp [List.length_zip, hts, hsv, hsrc]
      have hzlen : i < (tss.zip (slVals.zip
          ((inferColumn (raws.map (·.slr))).map replaceFlags))).length := by
        simp [List.length_zip, hts, hsv, hsrc]
        omega
      have hrow : rows.getD i dRow =
          ⟨tss.getD i ⟨0, 0⟩, slVals.getD i none,
            ((inferColumn (raws.map (·.slr))).map replaceFlags).getD i Cell.nan⟩ := by
        rw [← hrows,
          getD_map_lt (fun p => (⟨p.1, p.2.1, p.2.2⟩ : Row)) hzlen
            (⟨⟨0, 0⟩, none, Cell.nan⟩ :
              Timestamp × Option ℚ × Cell) dRow,
          getD_zip_lt (by omega) (by simp [List.length_zip, hsv, hsrc]; omega),
          getD_zip_lt (by omega) (by omega)]
      have hcell := astypeColumn_ok_getD hac i (by omega)
      rw [getD_map_lt replaceFlags (by simp [inferColumn_length]; omega)
        Cell.nan Cell.nan] at hcell
      rw [inferColumn_getD (by simp; omega)] at hcell
      have hslrcell : ((inferColumn (raws.map (·.slr))).map replaceFlags).getD i Cell.nan
          = replaceFlags ((inferColumn (raws.map (·.slr))).getD i Cell.nan) :=
        getD_map_lt replaceFlags (by simp [inferColumn_length]; omega) Cell.nan Cell.nan
      rw [inferColumn_getD (by simp; omega)] at hslrcell
      refine ⟨hlen, ?_, ?_, ?_, ?_, ?_⟩
      · intro hflag
        have hpn : parseFloat (raws.getD i dRaw).sl = none :=
          endsFlag_parseFloat_none hflag
        have hallf : (raws.map (·.sl)).all (fun s => (parseFloat s).isSome) = false := by
          cases hall : (raws.map (·.sl)).all (fun s => (parseFloat s).isSome) with
          | false => rfl
          | true =>
            exfalso
            have hmem : (raws.map (·.sl)).getD i [] ∈ raws.map (·.sl) :=
              getD_mem_of_lt (by simp; omega) []
            have := List.all_eq_true.mp hall _ hmem
            rw [hsl_i, hpn] at this
            simp at this
        rw [hallf] at hcell
        simp only [Bool.false_eq_true, if_false] at hcell
        rw [hsl_i] at hcell
        simp only [replaceFlags, hflag, if_true, astypeCell] at hcell
        rw [hrow]
        exact ((Except.ok.injEq _ _).mp hcell).symm
      · intro q hnoflag hq
        rw [hrow]
        by_cases hall : (raws.map (·.sl)).all (fun s => (parseFloat s).isSome) = true
        · rw [hall] at hcell
          simp only [if_true] at hcell
          rw [hsl_i, hq] at hcell
          simp only [Option.getD_some, replaceFlags, astypeCell] at hcell
          exact ((Except.ok.injEq _ _).mp hcell).symm
        · rw [Bool.not_eq_true] at hall
          rw [hall] at hcell
          simp only [Bool.false_eq_true, if_false] at hcell
          rw [hsl_i] at hcell
          simp only [replaceFlags, hnoflag, Bool.false_eq_true, if_false,
            astypeCell, hq] at hcell
          exact ((Except.ok.injEq _ _).mp hcell).symm
      · intro hflag
        have hpn : parseFloat (raws.getD i dRaw).slr = none :=
          endsFlag_parseFloat_none hflag
        have hallf : (raws.map (·.slr)).all (fun s => (parseFloat s).isSome) = false := by
          cases hall : (raws.map (·.slr)).all (fun s => (parseFloat s).isSome) with
          | false => rfl
          | true =>
            exfalso
            have hmem : (raws.map (·.slr)).getD i [] ∈ raws.map (·.slr) :=
              getD_mem_of_lt (by simp; omega) []
            have := List.all_eq_true.mp hall _ hmem
            rw [hslr_i, hpn] at this
            simp at this
        rw [hallf] at hslrcell
        simp only [Bool.false_eq_true, if_false] at hslrcell
        rw [hslr_i] at hslrcell
        simp only [replaceFlags, hflag, if_true] at hslrcell
        rw [hrow]
        exact hslrcell
      · intro hall q hq
        rw [hall] at hslrcell
        simp only [if_true] at hslrcell
        rw [hslr_i, hq] at hslrcell
        simp only [Option.getD_some, replaceFlags] at hslrcell
        rw [hrow]
        exact hslrcell
      · intro hall hnoflag
        rw [hall] at hslrcell
        simp only [Bool.false_eq_true, if_false] at hslrcell
        rw [hslr_i] at hslrcell
        simp only [replaceFlags, hnoflag, Bool.false_eq_true, if_false] at hslrcell
        rw [hrow]
        exact hslrcell

/-- C1 witness: the sanitize-and-coerce theorem applied to the concrete
file `exC1File` at its two rows: the flagged row becomes missing in both
columns, the unflagged sea level is coerced to the float `15`. -/
theorem C1_sanitize_and_coerce_witness :
    (exC1Rows.getD 1 dRow).seaLevel = none ∧
      (exC1Rows.getD 1 dRow).seaLevelRise = Cell.nan ∧
      (exC1Rows.getD 0 dRow).seaLevel = some 15 := by
  have h1 := C1_sanitize_and_coerce "data.txt" exC1File exC1Rows (by decide)
    1 (by decide)
  have h0 := C1_sanitize_and_coerce "data.txt" exC1File exC1Rows (by decide)
    0 (by decide)
  exact ⟨h1.2.1 (by decide), h1.2.2.2.1 (by decide),
    h0.2.2.1 15 (by decide) (by decide)⟩

/-- C6: `read_tidal_data` fails with the wrapped not-found error naming the
path exactly when the file does not exist; with an existing file it never
produces a not-found error, any row whose date/time does not match the
format aborts the whole parse with a generic error, and a successful parse
keeps every row (no per-row skip-and-continue, no partial result). -/
theorem C6_parser_error_discipline (filename : String) (raws : List RawRow) :
    read_tidal_data filename none =
      Except.error (Err.notFound ("The file " ++ filename ++ " does not exist")) ∧
      (∀ m, read_tidal_data filename (some raws) ≠ Except.error (Err.notFound m)) ∧
      ((∃ r ∈ raws, parseDateTime r.date r.time = none) →
        ∃ m, read_tidal_data filename (some raws) = Except.error (Err.valueErr m)) ∧
      (∀ rows, read_tidal_data filename (some raws) = Except.ok rows →
        rows.length = raws.length) := by
  refine ⟨rfl, ?_, ?_, ?_⟩
  · intro m h
    cases hpi : parseIndex raws with
    | error e =>
      simp [read_tidal_data, hpi, Except.bind] at h
      rcases parseIndex_error_shape hpi with ⟨m2, hm⟩
      rw [hm] at h
      exact Err.noConfusion h
    | ok tss =>
      cases hac : astypeColumn ((inferColumn (raws.map (·.sl))).map replaceFlags) with
      | error e =>
        simp [read_tidal_data, hpi, hac, Except.bind] at h
        rcases astypeColumn_error_shape hac with ⟨m2, hm⟩
        rw [hm] at h
        exact Err.noConfusion h
      | ok slVals => simp [read_tidal_data, hpi, hac, Except.bind] at h
  · intro hbad
    rcases parseIndex_fail_of_bad hbad with ⟨m, hm⟩
    exact ⟨m, by simp [read_tidal_data, hm, Except.bind]⟩
  · intro rows h
    cases hpi : parseIndex raws with
    | error e => simp [read_tidal_data, hpi, Except.bind] at h
    | ok tss =>
      cases hac : astypeColumn ((inferColumn (raws.map (·.sl))).map replaceFlags) with
      | error e => simp [read_tidal_data, hpi, hac, Except.bind] at h
      | ok slVals =>
        simp [read_tidal_data, hpi, hac, Except.bind] at h
        have h1 : tss.length = raws.length := parseIndex_ok_length hpi
        have h2 : slVals.length = raws.length := by
          have := astypeColumn_ok_length hac
          simpa [inferColumn_length] using this
        simp [← h, h1, h2, inferColumn_length]

/-- C6 witness: the parser-error theorem applied at a missing file, and at
a concrete existing file whose second row has a malformed date. -/
theorem C6_parser_error_discipline_witness :
    read_tidal_data "1947ABE.txt" none =
      Except.error (Err.notFound ("The file " ++ "1947ABE.txt" ++ " does not exist")) ∧
      (∃ r ∈ exC6File, parseDateTime r.date r.time = none) ∧
      (∃ m, read_tidal_data "1947ABE.txt" (some exC6File) =
        Except.error (Err.valueErr m)) := by
  refine ⟨(C6_parser_error_discipline "1947ABE.txt" exC6File).1, ?_, ?_⟩
  · exact ⟨exC6File.getD 1 ⟨[], [], [], [], []⟩, by decide, by decide⟩
  · exact (C6_parser_error_discipline "1947ABE.txt" exC6File).2.2.1
      ⟨exC6File.getD 1 ⟨[], [], [], [], []⟩, by decide, by decide⟩

/-- C7: two series that cannot be structurally joined (at least one
argument is not a pandas frame, the failure mode of `pd.concat`) make
`join_data` fail with the single descriptive wrapped error, not an uncaught
`TypeError`; two frames are always joined into the concatenation without
error. -/
theorem C7_join_error_surface (d1 d2 : PdObject) :
    (∀ a b, d1 = PdObject.frame a → d2 = PdObject.frame b →
      join_data d1 d2 = Except.ok (b ++ a)) ∧
      ((∀ a, d1 ≠ PdObject.frame a) ∨ (∀ b, d2 ≠ PdObject.frame b) →
        ∃ m, join_data d1 d2 =
          Except.error (Err.valueErr ("Concatenation error joining data: " ++ m))) := by
  constructor
  · intro a b h1 h2
    subst h1; subst h2
    simp [join_data, pd_concat, List.findSome?, List.flatten]
  · intro h
    cases d2 with
    | other t =>
      exact ⟨"cannot concatenate object of type " ++ t,
        by simp [join_data, pd_concat, List.findSome?]⟩
    | frame b =>
      cases d1 with
      | other t =>
        exact ⟨"cannot concatenate object of type " ++ t,
          by simp [join_data, pd_concat, List.findSome?]⟩
      | frame a =>
        rcases h with h | h
        · exact absurd rfl (h a)
        · exact absurd rfl (h b)

/-- C7 witness: the join-error theorem applied to a non-frame first
argument (wrapped error) and to two concrete frames (plain concatenation). -/
theorem C7_join_error_surface_witness :
    (∃ m, join_data (PdObject.other "int") (PdObject.frame []) =
      Except.error (Err.valueErr ("Concatenation error joining data: " ++ m))) ∧
      join_data (PdObject.frame exVMV) (PdObject.frame exC8) =
        Except.ok (exC8 ++ exVMV) := by
  constructor
  · exact (C7_join_error_surface (PdObject.other "int") (PdObject.frame [])).2
      (Or.inl fun a h => PdObject.noConfusion h)
  · exact (C7_join_error_surface (PdObject.frame exVMV) (PdObject.frame exC8)).1
      exVMV exC8 rfl rfl

/-- C5: `extract_single_year_remove_mean(year, series)` returns the same
result as `extract_section_remove_mean` applied with the bounds
`year*10000+0101` and `year*10000+1231` to the same series: the two entry
points share one slice-and-centre algorithm. -/
theorem C5_year_equals_section (year : ℕ) (data : List Row) :
    extract_single_year_remove_mean year data =
      extract_section_remove_mean (year * 10000 + 101) (year * 10000 + 1231) data :=
  rfl

/-- C4: `join_data(a, b)` concatenates the second argument's rows before
the first argument's rows, with no deduplication and no re-sorting: the
result is exactly `b ++ a`, its first `length b` rows are `b`, the
remaining rows are `a`, and its length is the sum of the two lengths. -/
theorem C4_join_is_second_first_concat (a b : List Row) :
    join_data (PdObject.frame a) (PdObject.frame b) = Except.ok (b ++ a) ∧
      (b ++ a).take b.length = b ∧
      (b ++ a).drop b.length = a ∧
      (b ++ a).length = a.length + b.length := by
  refine ⟨?_, ?_, ?_, ?_⟩
  · simp [join_data, pd_concat, List.findSome?]
  · exact List.take_left b a
  · exact List.drop_left b a
  · simp [List.length_append, Nat.add_comm]

/-- C8: the code drops missing rows before fitting, but with exactly one
valid point left the regression primitive's identical-x guard requires
`len(x) > 1` and is skipped, so the call silently returns `NaN` slope and
`NaN` p-value instead of any error: `InsufficientData` is never surfaced.
Evaluation of `sea_level_rise` at the failing input (one valid reading
among missing ones). -/
theorem C8_single_point_silent_nan :
    sea_level_rise exC8 = Except.ok (none, none) ∧
      (Except.ok (none, none) : Except Err (Option ℚ × Option Unit)) ≠
        Except.error Err.insufficientData := by
  exact ⟨by decide, by decide⟩

/-- C9 counterexample: `tidal_analysis` mutates its caller's frame — the
statement `data.index = data.index.tz_localize(None)` replaces the index of
the passed frame itself, so a timezone-aware input is observably changed
after the call. -/
theorem C9_adapter_mutates_input :
    tidal_analysis_inputAfter exTA ≠ exTA := by
  decide

/-- C9 (amended): the extractor entry points, the combiner, the scanner and
the trend estimator leave the caller's series unchanged (each works on a
derived copy), and the harmonic adapter preserves the rows; but the
harmonic adapter reassigns the input frame's index to its timezone-naive
version, so a timezone-aware input frame is mutated in place (a
timezone-naive one is left unchanged). -/
theorem C9_frame_effects (start stop year : ℕ) (d1 d2 : PdObject)
    (data : List Row) (taf : TAFrame) :
    extract_section_remove_mean_inputAfter start stop data = data ∧
      extract_single_year_remove_mean_inputAfter year data = data ∧
      join_data_inputAfter d1 d2 = (d1, d2) ∧
      get_longest_contiguous_data_inputAfter data = data ∧
      sea_level_rise_inputAfter data = data ∧
      (tidal_analysis_inputAfter taf).rows = taf.rows ∧
      (taf.tzAware = true → tidal_analysis_inputAfter taf ≠ taf) ∧
      (taf.tzAware = false → tidal_analysis_inputAfter taf = taf) := by
  refine ⟨rfl, rfl, rfl, rfl, rfl, rfl, ?_, ?_⟩
  · intro h heq
    have : (tidal_analysis_inputAfter taf).tzAware = taf.tzAware := by rw [heq]
    simp [tidal_analysis_inputAfter, h] at this
  · intro h
    cases taf with
    | mk tz rows => simp_all [tidal_analysis_inputAfter]

/-- C9 witness: the frame-effect theorem instantiated at the concrete
timezone-aware frame `exTA`, whose hypothesis holds by computation. -/
theorem C9_frame_effects_witness :
    exTA.tzAware = true ∧ tidal_analysis_inputAfter exTA ≠ exTA := by
  refine ⟨by decide, ?_⟩
  exact (C9_frame_effects 0 0 0 (PdObject.frame []) (PdObject.frame []) [] exTA).2.2.2.2.2.2.1
    (by decide)

end Tidal
